import Mathlib

/-!
Verification of the dragbin-crypto envelope layer.

The repository's envelope logic (message, symmetric, and group envelopes,
plus byte serialization) is shallowly embedded below.  Byte buffers
(`Uint8Array`) are `List Nat`; randomness consumed by the code
(IVs, salts, session keys, KEM encapsulation coins) is passed as explicit
arguments, so every function is a pure Lean `def` mirroring the
TypeScript source line by line.

The cryptographic primitive capabilities (Kyber KEM, Argon2id KDF,
AES-GCM AEAD, base64) are consumed by the repository as black boxes and
their implementations (`kyber.ts`, `keyDerivation.ts`, `utils.ts`) are not
part of the sources under verification; they are modelled from the spec's
interface contract (§6): an ideal AEAD whose tag binds key, IV and
plaintext, an ideal KEM whose decapsulation under a mismatched private key
silently yields a different shared secret, and a deterministic injective
KDF.
-/

/-- Injective encoding of a byte list into a natural number, used to build
the ideal AEAD authentication tag. -/
def encodeList : List Nat → Nat
  | [] => 0
  | a :: l => Nat.pair a (encodeList l) + 1

theorem encodeList_injective : ∀ {l₁ l₂ : List Nat}, encodeList l₁ = encodeList l₂ → l₁ = l₂
  | [], [], _ => rfl
  | [], _ :: _, h => by simp [encodeList] at h
  | _ :: _, [], h => by simp [encodeList] at h
  | a :: l, b :: m, h => by
    simp only [encodeList, Nat.add_right_cancel_iff] at h
    obtain ⟨h1, h2⟩ := Nat.pair_eq_pair.mp h
    rw [h1, encodeList_injective h2]

/-- Model of TextEncoder: a JS string becomes the list of its character
codes (the composite with `textDecode` is the identity, as it is for the
UTF-8 encoder/decoder pair used in the source). -/
def textEncode (s : String) : List Nat := s.data.map Char.toNat

/-- Model of TextDecoder, the left inverse of `textEncode`. -/
def textDecode (l : List Nat) : String := String.mk (l.map Char.ofNat)

theorem textDecode_textEncode (s : String) : textDecode (textEncode s) = s := by
  cases s with
  | mk data =>
    simp only [textDecode, textEncode, List.map_map]
    congr 1
    exact List.map_congr_left (fun c _ => Char.ofNat_toNat c) |>.trans (List.map_id data)

theorem textEncode_injective : Function.Injective textEncode := by
  intro s₁ s₂ h
  have := congrArg textDecode h
  rwa [textDecode_textEncode, textDecode_textEncode] at this

/-- Modelled from the spec: AEAD authentication tag (§6 AEAD capability,
`crypto.subtle` AES-GCM in the source). The ideal tag binds the key, the
IV and the plaintext injectively, so a tag check fails exactly when any of
them differs — the spec's "decryption fails closed if the tag does not
verify". -/
def aeadTag (key iv pt : List Nat) : Nat :=
  Nat.pair (encodeList key) (Nat.pair (encodeList iv) (encodeList pt))

/-- Modelled from the spec: AEAD encryption `encrypt(key, iv, plaintext) ->
ciphertext‖tag` (§6). The ciphertext carries the plaintext body followed
by the authentication tag. -/
def aeadEncrypt (key iv pt : List Nat) : List Nat :=
  pt ++ [aeadTag key iv pt]

/-- Modelled from the spec: AEAD decryption (§6); returns `none` on
authentication failure (tag mismatch or input too short to hold a tag). -/
def aeadDecrypt (key iv ct : List Nat) : Option (List Nat) :=
  match ct.getLast? with
  | none => none
  | some t => if aeadTag key iv ct.dropLast = t then some ct.dropLast else none

theorem aeadTag_inj {k₁ k₂ iv₁ iv₂ p₁ p₂ : List Nat}
    (h : aeadTag k₁ iv₁ p₁ = aeadTag k₂ iv₂ p₂) : k₁ = k₂ ∧ iv₁ = iv₂ ∧ p₁ = p₂ := by
  unfold aeadTag at h
  obtain ⟨h1, h2⟩ := Nat.pair_eq_pair.mp h
  obtain ⟨h3, h4⟩ := Nat.pair_eq_pair.mp h2
  exact ⟨encodeList_injective h1, encodeList_injective h3, encodeList_injective h4⟩

theorem aeadDecrypt_aeadEncrypt (key iv pt : List Nat) :
    aeadDecrypt key iv (aeadEncrypt key iv pt) = some pt := by
  simp [aeadDecrypt, aeadEncrypt, List.getLast?_concat, List.dropLast_concat]

theorem aeadDecrypt_wrong_key {key key' : List Nat} (iv pt : List Nat) (h : key' ≠ key) :
    aeadDecrypt key' iv (aeadEncrypt key iv pt) = none := by
  simp only [aeadDecrypt, aeadEncrypt, List.getLast?_concat, List.dropLast_concat]
  split
  · next heq => exact absurd (aeadTag_inj heq).1 h
  · rfl

theorem aeadDecrypt_nil (key iv : List Nat) : aeadDecrypt key iv [] = none := rfl

/-- Modelled from the spec: a Kyber key pair (§6 KEM capability,
`kyber.ts` is not among the sources). Keys are abstract handles; a pair
generated from one seed is "matching". -/
structure KyberKeyPair where
  publicKey : Nat
  privateKey : Nat
  deriving DecidableEq, Repr

/-- Modelled from the spec: `generateKeyPair()` (§6), indexed by the
generator's random seed. -/
def generateKyberKeyPair (seed : Nat) : KyberKeyPair :=
  { publicKey := seed, privateKey := seed }

/-- Modelled from the spec: the shared secret produced by encapsulating
under `pub` with encapsulation coins `r`. -/
def sharedSecretOf (pub r : Nat) : List Nat := [0, pub, r]

/-- Modelled from the spec: `encapsulate(publicKey) -> (ciphertext,
sharedSecret)` (§6), with the KEM's random coins `r` made explicit.
The ciphertext is an opaque handle determined by the public key and the
coins. -/
def kyberEncapsulate (pub r : Nat) : Nat × List Nat :=
  (Nat.pair pub r, sharedSecretOf pub r)

/-- Modelled from the spec: `decapsulate(ciphertext, privateKey) ->
sharedSecret` (§6). Decapsulation with the matching private key recovers
the encapsulated secret; with any other key it "silently yields a
different shared secret (KEM has no integrity signal of its own)"
(spec §4.2). -/
def kyberDecapsulate (ct priv : Nat) : List Nat :=
  if (Nat.unpair ct).1 = priv then sharedSecretOf (Nat.unpair ct).1 (Nat.unpair ct).2
  else [1, priv, ct]

theorem kyberDecapsulate_encap (pub r : Nat) :
    kyberDecapsulate (kyberEncapsulate pub r).1 pub = sharedSecretOf pub r := by
  simp [kyberDecapsulate, kyberEncapsulate, Nat.unpair_pair]

theorem kyberDecapsulate_wrong_key (pub r priv : Nat) (h : priv ≠ pub) :
    kyberDecapsulate (Nat.pair pub r) priv ≠ sharedSecretOf pub r := by
  simp only [kyberDecapsulate, Nat.unpair_pair]
  rw [if_neg (fun hc => h hc.symm)]
  intro hc
  simp [sharedSecretOf] at hc

/-- Modelled from the spec: `derive(password, salt?) -> (key, salt)`
(§6 password-KDF capability, `keyDerivation.ts` is not among the
sources): deterministic given identical inputs, and distinct
(password, salt) pairs yield distinct keys (ideal KDF). -/
def deriveKeyBytes (password : String) (salt : List Nat) : List Nat :=
  [2, Nat.pair (encodeList (textEncode password)) (encodeList salt)]

theorem deriveKeyBytes_inj {p₁ p₂ : String} {s₁ s₂ : List Nat}
    (h : deriveKeyBytes p₁ s₁ = deriveKeyBytes p₂ s₂) : p₁ = p₂ ∧ s₁ = s₂ := by
  simp only [deriveKeyBytes, List.cons.injEq, and_true] at h
  obtain ⟨h1, h2⟩ := Nat.pair_eq_pair.mp h.2
  exact ⟨textEncode_injective (encodeList_injective h1), encodeList_injective h2⟩

/-- Errors a decrypt operation can surface. `authenticationFailure` models
the AEAD `OperationError` thrown by `crypto.subtle.decrypt` on a tag
mismatch; `malformedEnvelope` is the envelope-too-short error named by the
spec's taxonomy (§7); `typeErrorUndefined` models the JavaScript TypeError
thrown when a property of an `undefined` array element is accessed. -/
inductive CryptoError where
  | authenticationFailure
  | malformedEnvelope
  | typeErrorUndefined
  deriving DecidableEq, Repr

/-- Return type of `encryptMessage` in `message.ts`: packed
`[IV (12 bytes)][AES-GCM ciphertext]` plus the Kyber ciphertext. -/
structure EncryptedMessage where
  encryptedData : List Nat
  kyberEncryptedSessionKey : Nat
  deriving DecidableEq, Repr

/-- Embedding of `encryptMessage` (message.ts). The KEM coins `encapRand`
and the random 12-byte IV drawn by `generateIV()` are explicit
arguments. -/
def encryptMessage (message : String) (publicKey : Nat) (encapRand : Nat) (iv : List Nat) :
    EncryptedMessage :=
  let enc := kyberEncapsulate publicKey encapRand
  let encryptedMessage := aeadEncrypt enc.2 iv (textEncode message)
  { encryptedData := iv ++ encryptedMessage,
    kyberEncryptedSessionKey := enc.1 }

/-- Embedding of `decryptMessage` (message.ts): decapsulate, split the
first 12 bytes as IV (`subarray(0, 12)` / `subarray(12)`), AEAD-decrypt,
decode the plaintext bytes back to a string. -/
def decryptMessage (em : EncryptedMessage) (privateKey : Nat) : Except CryptoError String :=
  let rawSessionKey := kyberDecapsulate em.kyberEncryptedSessionKey privateKey
  let iv := em.encryptedData.take 12
  let ciphertext := em.encryptedData.drop 12
  match aeadDecrypt rawSessionKey iv ciphertext with
  | none => .error .authenticationFailure
  | some pt => .ok (textDecode pt)

/-- Return type of `encryptSymmetricMessage` (symmetric-message.ts). -/
structure SymmetricEncryptedMessage where
  encryptedData : List Nat
  salt : List Nat
  deriving DecidableEq, Repr

/-- Embedding of `encryptSymmetricMessage` (symmetric-message.ts). The
salt (caller-supplied, or the 16 random bytes `deriveKeyFromPassword`
generates when none is supplied) and the random IV are explicit
arguments. -/
def encryptSymmetricMessage (message password : String) (salt iv : List Nat) :
    SymmetricEncryptedMessage :=
  let derivedKey := deriveKeyBytes password salt
  { encryptedData := iv ++ aeadEncrypt derivedKey iv (textEncode message),
    salt := salt }

/-- Embedding of `decryptSymmetricMessage` (symmetric-message.ts):
re-derive the key from the envelope's salt, split the first 12 bytes as
IV, AEAD-decrypt. -/
def decryptSymmetricMessage (em : SymmetricEncryptedMessage) (password : String) :
    Except CryptoError String :=
  let derivedKey := deriveKeyBytes password em.salt
  let iv := em.encryptedData.take 12
  let ciphertext := em.encryptedData.drop 12
  match aeadDecrypt derivedKey iv ciphertext with
  | none => .error .authenticationFailure
  | some pt => .ok (textDecode pt)

/-- Helper: taking the first `n` elements of `l₁ ++ l₂` gives back `l₁`
when `l₁` has length `n` (the IV split). -/
theorem take_append_of_len {l₁ : List Nat} {n : Nat} (l₂ : List Nat) (h : l₁.length = n) :
    (l₁ ++ l₂).take n = l₁ := by
  subst h; exact List.take_left l₁ l₂

/-- Helper: dropping the first `n` elements of `l₁ ++ l₂` gives `l₂` when
`l₁` has length `n`. -/
theorem drop_append_of_len {l₁ : List Nat} {n : Nat} (l₂ : List Nat) (h : l₁.length = n) :
    (l₁ ++ l₂).drop n = l₂ := by
  subst h; exact List.drop_left l₁ l₂

/-- One entry of a group envelope's `wrappedKeys` array (types.ts via
group.ts): the Kyber ciphertext for this recipient plus
`[IV (12 bytes)][AES-GCM encrypted session key]`. -/
structure WrappedKey where
  kyberCipherText : Nat
  wrappedSessionKey : List Nat
  deriving DecidableEq, Repr

/-- Return type of `encryptForGroup` (group.ts): the payload encrypted
once, plus one wrapped session key per recipient. -/
structure GroupEncryptedMessage where
  encryptedData : List Nat
  wrappedKeys : List WrappedKey
  deriving DecidableEq, Repr

/-- Embedding of the `for (const key of publicKeys)` loop of
`encryptForGroup`: encapsulate under each public key in order, wrap the
raw session key under the shared secret with a fresh per-recipient IV,
and store Kyber ciphertext + (IV-prefixed) wrapped session key. The
position counter `i` indexes into the randomness tapes `encapRand` /
`wrapIv`. -/
def wrapKeys (publicKeys : List Nat) (rawSessionKey : List Nat)
    (encapRand : Nat → Nat) (wrapIv : Nat → List Nat) (i : Nat) : List WrappedKey :=
  match publicKeys with
  | [] => []
  | pub :: rest =>
    let enc := kyberEncapsulate pub (encapRand i)
    let wIv := wrapIv i
    let encryptedSessionKey := aeadEncrypt enc.2 wIv rawSessionKey
    { kyberCipherText := enc.1,
      wrappedSessionKey := wIv ++ encryptedSessionKey }
      :: wrapKeys rest rawSessionKey encapRand wrapIv (i + 1)

/-- Embedding of `encryptForGroup` (group.ts): generate a random session
key (argument `rawSessionKey`), encrypt the message once under it with IV
`iv`, and wrap the session key for each recipient. Randomness tapes for
the per-recipient KEM coins and wrapping IVs are explicit. -/
def encryptForGroup (message : String) (publicKeys : List Nat)
    (rawSessionKey : List Nat) (iv : List Nat)
    (encapRand : Nat → Nat) (wrapIv : Nat → List Nat) : GroupEncryptedMessage :=
  let encryptedMessage := aeadEncrypt rawSessionKey iv (textEncode message)
  { encryptedData := iv ++ encryptedMessage,
    wrappedKeys := wrapKeys publicKeys rawSessionKey encapRand wrapIv 0 }

/-- Embedding of `decryptFromGroup` (group.ts). Layer 1: fetch
`wrappedKeys[recipientIndex]` (an out-of-range index leaves `undefined`,
and the subsequent `.kyberCipherText` access throws a TypeError before
any KEM or AEAD work), decapsulate, split the wrapped session key at
byte 12, unwrap. Layer 2: split `encryptedData` at byte 12 and decrypt
the payload with the recovered session key. -/
def decryptFromGroup (encrypted : GroupEncryptedMessage) (privateKey : Nat)
    (recipientIndex : Nat) : Except CryptoError String :=
  match encrypted.wrappedKeys[recipientIndex]? with
  | none => .error .typeErrorUndefined
  | some myWrappedKey =>
    let sharedSecret := kyberDecapsulate myWrappedKey.kyberCipherText privateKey
    let wrappingIv := myWrappedKey.wrappedSessionKey.take 12
    let encryptedSessionKey := myWrappedKey.wrappedSessionKey.drop 12
    match aeadDecrypt sharedSecret wrappingIv encryptedSessionKey with
    | none => .error .authenticationFailure
    | some rawSessionKey =>
      let iv := encrypted.encryptedData.take 12
      let ciphertext := encrypted.encryptedData.drop 12
      match aeadDecrypt rawSessionKey iv ciphertext with
      | none => .error .authenticationFailure
      | some pt => .ok (textDecode pt)

theorem wrapKeys_length (publicKeys rawSessionKey : List Nat)
    (encapRand : Nat → Nat) (wrapIv : Nat → List Nat) (i : Nat) :
    (wrapKeys publicKeys rawSessionKey encapRand wrapIv i).length = publicKeys.length := by
  induction publicKeys generalizing i with
  | nil => rfl
  | cons pub rest ih => simp [wrapKeys, ih]

theorem wrapKeys_getElem? (publicKeys rawSessionKey : List Nat)
    (encapRand : Nat → Nat) (wrapIv : Nat → List Nat) (s i : Nat) (h : i < publicKeys.length) :
    (wrapKeys publicKeys rawSessionKey encapRand wrapIv s)[i]? =
      some { kyberCipherText := (kyberEncapsulate (publicKeys.get ⟨i, h⟩) (encapRand (s + i))).1,
             wrappedSessionKey := wrapIv (s + i) ++
               aeadEncrypt (kyberEncapsulate (publicKeys.get ⟨i, h⟩) (encapRand (s + i))).2
                 (wrapIv (s + i)) rawSessionKey } := by
  induction publicKeys generalizing s i with
  | nil => exact absurd h (by simp)
  | cons pub rest ih =>
    cases i with
    | zero => simp [wrapKeys]
    | succ j =>
      have hj : j < rest.length := by simpa using h
      have := ih s.succ j hj
      simp only [wrapKeys, List.getElem?_cons_succ, List.get_cons_succ]
      rw [this]
      have harg : s + 1 + j = s + (j + 1) := by omega
      rw [harg]

/-- Modelled from the spec: the base64 alphabet of the "base64-style
serialization" capability (`bytesToBase64`/`base64ToBytes` live in
`utils.ts`, which is not among the sources; RFC 4648 standard
alphabet). -/
def b64Alphabet : List Char :=
  "ABCDEFGHIJKLMNOPQRSTUVWXYZabcdefghijklmnopqrstuvwxyz0123456789+/".data

/-- Character for a 6-bit value. -/
def b64Char (n : Nat) : Char := b64Alphabet.getD n '='

/-- Inverse lookup: position of a character in the base64 alphabet. -/
def b64Index (c : Char) : Nat := b64Alphabet.findIdx (fun x => x == c)

/-- Modelled from the spec: base64 encoding of a byte list, three bytes
to four characters, padded with = on a final partial group. -/
def b64EncodeChars : List Nat → List Char
  | [] => []
  | [a] => [b64Char (a / 4), b64Char (a % 4 * 16), '=', '=']
  | [a, b] => [b64Char (a / 4), b64Char (a % 4 * 16 + b / 16), b64Char (b % 16 * 4), '=']
  | a :: b :: c :: rest =>
    b64Char (a / 4) :: b64Char (a % 4 * 16 + b / 16) :: b64Char (b % 16 * 4 + c / 64) ::
      b64Char (c % 64) :: b64EncodeChars rest

/-- Modelled from the spec: base64 decoding, four characters to three
bytes, honouring = padding. -/
def b64DecodeChars : List Char → List Nat
  | c1 :: c2 :: c3 :: c4 :: rest =>
    if c3 = '=' then [b64Index c1 * 4 + b64Index c2 / 16]
    else if c4 = '=' then
      [b64Index c1 * 4 + b64Index c2 / 16, b64Index c2 % 16 * 16 + b64Index c3 / 4]
    else
      (b64Index c1 * 4 + b64Index c2 / 16) ::
        (b64Index c2 % 16 * 16 + b64Index c3 / 4) ::
        (b64Index c3 % 4 * 64 + b64Index c4) :: b64DecodeChars rest
  | _ => []

/-- Modelled from the spec: `bytesToBase64` of `utils.ts`. -/
def bytesToBase64 (data : List Nat) : String := String.mk (b64EncodeChars data)

/-- Modelled from the spec: `base64ToBytes` of `utils.ts`. -/
def base64ToBytes (s : String) : List Nat := b64DecodeChars s.data

/-- Embedding of `exportBytes` (serialization.ts): delegate to
`bytesToBase64`. -/
def exportBytes (data : List Nat) : String := bytesToBase64 data

/-- Embedding of `importBytes` (serialization.ts): delegate to
`base64ToBytes`. -/
def importBytes (s : String) : List Nat := base64ToBytes s

theorem b64Index_b64Char : ∀ n < 64, b64Index (b64Char n) = n := by decide

theorem b64Char_ne_pad : ∀ n < 64, b64Char n ≠ '=' := by decide

theorem b64_roundtrip : ∀ l : List Nat, (∀ x ∈ l, x < 256) →
    b64DecodeChars (b64EncodeChars l) = l
  | [], _ => rfl
  | [a], h => by
    have ha : a < 256 := h a (by simp)
    simp only [b64EncodeChars, b64DecodeChars, if_true]
    rw [b64Index_b64Char (a / 4) (by omega), b64Index_b64Char (a % 4 * 16) (by omega)]
    congr 1
    omega
  | [a, b], h => by
    have ha : a < 256 := h a (by simp)
    have hb : b < 256 := h b (by simp)
    simp only [b64EncodeChars, b64DecodeChars]
    rw [if_neg (b64Char_ne_pad (b % 16 * 4) (by omega))]
    simp only [if_true]
    rw [b64Index_b64Char (a / 4) (by omega), b64Index_b64Char (a % 4 * 16 + b / 16) (by omega),
      b64Index_b64Char (b % 16 * 4) (by omega)]
    congr 1
    · omega
    · congr 1
      omega
  | a :: b :: c :: rest, h => by
    have ha : a < 256 := h a (by simp)
    have hb : b < 256 := h b (by simp)
    have hc : c < 256 := h c (by simp)
    have ih := b64_roundtrip rest (fun x hx => h x (by simp [hx]))
    simp only [b64EncodeChars, b64DecodeChars]
    rw [if_neg (b64Char_ne_pad (b % 16 * 4 + c / 64) (by omega)),
      if_neg (b64Char_ne_pad (c % 64) (by omega))]
    rw [b64Index_b64Char (a / 4) (by omega), b64Index_b64Char (a % 4 * 16 + b / 16) (by omega),
      b64Index_b64Char (b % 16 * 4 + c / 64) (by omega), b64Index_b64Char (c % 64) (by omega)]
    rw [ih]
    congr 1
    · omega
    · congr 1
      · omega
      · congr 1
        omega

/-- C2: for every plaintext string P (including the empty string, long
strings, and multi-byte/unicode content) and every valid key pair K,
`decryptMessage(encryptMessage(P, K.public), K.private)` returns P.
(KEM and AEAD capabilities spec-modelled from §6.) -/
theorem claim_C2_message_roundtrip (P : String) (seed encapRand : Nat) (iv : List Nat)
    (hiv : iv.length = 12) :
    decryptMessage
      (encryptMessage P (generateKyberKeyPair seed).publicKey encapRand iv)
      (generateKyberKeyPair seed).privateKey = .ok P := by
  simp only [encryptMessage, decryptMessage, generateKyberKeyPair, kyberEncapsulate,
    kyberDecapsulate, Nat.unpair_pair, if_true,
    take_append_of_len _ hiv, drop_append_of_len _ hiv,
    aeadDecrypt_aeadEncrypt, textDecode_textEncode]

/-- Witness for C2 at a concrete unicode plaintext, key pair and IV. -/
theorem claim_C2_witness :
    decryptMessage
      (encryptMessage "héllo✓" (generateKyberKeyPair 3).publicKey 5
        [0, 1, 2, 3, 4, 5, 6, 7, 8, 9, 10, 11])
      (generateKyberKeyPair 3).privateKey = .ok "héllo✓" :=
  claim_C2_message_roundtrip "héllo✓" 3 5 [0, 1, 2, 3, 4, 5, 6, 7, 8, 9, 10, 11] (by decide)

/-- C3: for every plaintext P and password W,
`decryptSymmetricMessage(encryptSymmetricMessage(P, W), W)` returns P,
and the salt used during encryption is carried in the returned envelope.
(KDF and AEAD capabilities spec-modelled from §6.) -/
theorem claim_C3_symmetric_roundtrip (P W : String) (salt iv : List Nat)
    (hiv : iv.length = 12) :
    decryptSymmetricMessage (encryptSymmetricMessage P W salt iv) W = .ok P ∧
    (encryptSymmetricMessage P W salt iv).salt = salt := by
  refine ⟨?_, rfl⟩
  simp only [encryptSymmetricMessage, decryptSymmetricMessage,
    take_append_of_len _ hiv, drop_append_of_len _ hiv, aeadDecrypt_aeadEncrypt,
    textDecode_textEncode]

/-- Witness for C3 at a concrete plaintext, password, salt and IV. -/
theorem claim_C3_witness :
    decryptSymmetricMessage
        (encryptSymmetricMessage "msg" "pw" [7, 7] [0, 1, 2, 3, 4, 5, 6, 7, 8, 9, 10, 11]) "pw"
      = .ok "msg" ∧
    (encryptSymmetricMessage "msg" "pw" [7, 7] [0, 1, 2, 3, 4, 5, 6, 7, 8, 9, 10, 11]).salt
      = [7, 7] :=
  claim_C3_symmetric_roundtrip "msg" "pw" [7, 7] [0, 1, 2, 3, 4, 5, 6, 7, 8, 9, 10, 11]
    (by decide)

/-- C6: decrypting a symmetric envelope with any password other than the
one used to encrypt raises AuthenticationFailure and never returns a
plaintext. (KDF and AEAD capabilities spec-modelled from §6.) -/
theorem claim_C6_wrong_password (P W Wbad : String) (salt iv : List Nat)
    (hiv : iv.length = 12) (hW : Wbad ≠ W) :
    decryptSymmetricMessage (encryptSymmetricMessage P W salt iv) Wbad
      = .error .authenticationFailure := by
  have hkey : deriveKeyBytes Wbad salt ≠ deriveKeyBytes W salt :=
    fun hc => hW (deriveKeyBytes_inj hc).1
  simp only [encryptSymmetricMessage, decryptSymmetricMessage,
    take_append_of_len _ hiv, drop_append_of_len _ hiv,
    aeadDecrypt_wrong_key _ _ hkey]

/-- Witness for C6 at a concrete plaintext and two distinct passwords. -/
theorem claim_C6_witness :
    decryptSymmetricMessage
        (encryptSymmetricMessage "s" "pw" [3] [0, 1, 2, 3, 4, 5, 6, 7, 8, 9, 10, 11]) "qw"
      = .error .authenticationFailure :=
  claim_C6_wrong_password "s" "pw" "qw" [3] [0, 1, 2, 3, 4, 5, 6, 7, 8, 9, 10, 11]
    (by decide) (by decide)

/-- C8: importBytes(exportBytes(b)) recovers any byte buffer exactly
(bytes are values below 256; covers lengths 0, 1, 10000, ...).
(Base64 helpers of `utils.ts` spec-modelled as RFC 4648 base64.) -/
theorem claim_C8_serialization_roundtrip (b : List Nat) (hb : ∀ x ∈ b, x < 256) :
    importBytes (exportBytes b) = b := by
  simpa [importBytes, exportBytes, base64ToBytes, bytesToBase64] using b64_roundtrip b hb

/-- Witness for C8 at a concrete buffer. -/
theorem claim_C8_witness :
    importBytes (exportBytes [0, 255, 7, 128, 63]) = [0, 255, 7, 128, 63] :=
  claim_C8_serialization_roundtrip [0, 255, 7, 128, 63] (by decide)

/-- C9: calling decryptFromGroup with a recipientIndex outside
[0, wrappedKeys.length) fails with the JavaScript TypeError raised when
`wrappedKeys[recipientIndex]` is undefined — not AuthenticationFailure,
and no plaintext is returned. -/
theorem claim_C9_index_out_of_range (env : GroupEncryptedMessage) (privateKey idx : Nat)
    (h : env.wrappedKeys.length ≤ idx) :
    decryptFromGroup env privateKey idx = .error .typeErrorUndefined := by
  simp only [decryptFromGroup, List.getElem?_eq_none h]

/-- Witness for C9 at a concrete envelope and out-of-range index. -/
theorem claim_C9_witness :
    decryptFromGroup { encryptedData := [1, 2, 3], wrappedKeys := [] } 0 5
      = .error .typeErrorUndefined :=
  claim_C9_index_out_of_range { encryptedData := [1, 2, 3], wrappedKeys := [] } 0 5 (by decide)

/-- C10: encryptForGroup with an empty recipient list succeeds, returning
an envelope with an empty wrappedKeys array and a well-formed packed AEAD
payload `IV(12) ‖ ciphertext‖tag` of at least 12 bytes. -/
theorem claim_C10_empty_group (P : String) (rawSessionKey iv : List Nat)
    (encapRand : Nat → Nat) (wrapIv : Nat → List Nat) (hiv : iv.length = 12) :
    (encryptForGroup P [] rawSessionKey iv encapRand wrapIv).wrappedKeys = [] ∧
    (encryptForGroup P [] rawSessionKey iv encapRand wrapIv).encryptedData
      = iv ++ aeadEncrypt rawSessionKey iv (textEncode P) ∧
    12 ≤ (encryptForGroup P [] rawSessionKey iv encapRand wrapIv).encryptedData.length := by
  refine ⟨rfl, rfl, ?_⟩
  simp [encryptForGroup, hiv]

/-- Witness for C10 at a concrete plaintext, session key and IV. -/
theorem claim_C10_witness :
    (encryptForGroup "x" [] [9] [0, 1, 2, 3, 4, 5, 6, 7, 8, 9, 10, 11]
        (fun _ => 0) (fun _ => [])).wrappedKeys = [] ∧
    (encryptForGroup "x" [] [9] [0, 1, 2, 3, 4, 5, 6, 7, 8, 9, 10, 11]
        (fun _ => 0) (fun _ => [])).encryptedData
      = [0, 1, 2, 3, 4, 5, 6, 7, 8, 9, 10, 11] ++
          aeadEncrypt [9] [0, 1, 2, 3, 4, 5, 6, 7, 8, 9, 10, 11] (textEncode "x") ∧
    12 ≤ (encryptForGroup "x" [] [9] [0, 1, 2, 3, 4, 5, 6, 7, 8, 9, 10, 11]
        (fun _ => 0) (fun _ => [])).encryptedData.length :=
  claim_C10_empty_group "x" [9] [0, 1, 2, 3, 4, 5, 6, 7, 8, 9, 10, 11]
    (fun _ => 0) (fun _ => []) (by decide)

/-- C1: for every plaintext P, every list of valid key pairs and every
index i in [0,N), decrypting the group envelope with the i-th private key
and index i returns P. (KEM and AEAD capabilities spec-modelled
from §6.) -/
theorem claim_C1_group_roundtrip (P : String) (seeds : List Nat) (i : Nat)
    (hi : i < seeds.length) (rawSessionKey iv : List Nat)
    (encapRand : Nat → Nat) (wrapIv : Nat → List Nat)
    (hiv : iv.length = 12) (hwiv : ∀ j, (wrapIv j).length = 12) :
    decryptFromGroup
      (encryptForGroup P (seeds.map (fun s => (generateKyberKeyPair s).publicKey))
        rawSessionKey iv encapRand wrapIv)
      (generateKyberKeyPair (seeds.get ⟨i, hi⟩)).privateKey i = .ok P := by
  have hmap : seeds.map (fun s => (generateKyberKeyPair s).publicKey) = seeds := by
    simp [generateKyberKeyPair]
  rw [hmap]
  have hpriv : (generateKyberKeyPair (seeds.get ⟨i, hi⟩)).privateKey = seeds.get ⟨i, hi⟩ := rfl
  rw [hpriv]
  simp only [encryptForGroup, decryptFromGroup]
  rw [wrapKeys_getElem? seeds rawSessionKey encapRand wrapIv 0 i hi]
  simp only [Nat.zero_add, kyberEncapsulate, kyberDecapsulate, Nat.unpair_pair, if_true,
    take_append_of_len _ (hwiv i), drop_append_of_len _ (hwiv i), aeadDecrypt_aeadEncrypt,
    take_append_of_len _ hiv, drop_append_of_len _ hiv, textDecode_textEncode]

/-- Witness for C1 at a concrete plaintext, two key pairs and index 1. -/
theorem claim_C1_witness :
    decryptFromGroup
      (encryptForGroup "g" ([4, 9].map (fun s => (generateKyberKeyPair s).publicKey))
        [8] [0, 1, 2, 3, 4, 5, 6, 7, 8, 9, 10, 11] (fun n => n + 20)
        (fun n => [n, n, n, n, n, n, n, n, n, n, n, n]))
      (generateKyberKeyPair ([4, 9].get ⟨1, by decide⟩)).privateKey 1 = .ok "g" :=
  claim_C1_group_roundtrip "g" [4, 9] 1 (by decide) [8]
    [0, 1, 2, 3, 4, 5, 6, 7, 8, 9, 10, 11] (fun n => n + 20)
    (fun n => [n, n, n, n, n, n, n, n, n, n, n, n]) (by decide) (fun _ => rfl)

/-- C5: decrypting a group envelope with an in-range index i but the
private key of a different (distinct-keyed) recipient j raises
AuthenticationFailure and never returns a plaintext. (KEM and AEAD
capabilities spec-modelled from §6.) -/
theorem claim_C5_wrong_recipient_key (P : String) (seeds : List Nat) (i j : Nat)
    (hi : i < seeds.length) (hj : j < seeds.length)
    (hne : seeds.get ⟨j, hj⟩ ≠ seeds.get ⟨i, hi⟩)
    (rawSessionKey iv : List Nat) (encapRand : Nat → Nat) (wrapIv : Nat → List Nat)
    (hwiv : ∀ k, (wrapIv k).length = 12) :
    decryptFromGroup
      (encryptForGroup P (seeds.map (fun s => (generateKyberKeyPair s).publicKey))
        rawSessionKey iv encapRand wrapIv)
      (generateKyberKeyPair (seeds.get ⟨j, hj⟩)).privateKey i
      = .error .authenticationFailure := by
  have hmap : seeds.map (fun s => (generateKyberKeyPair s).publicKey) = seeds := by
    simp [generateKyberKeyPair]
  rw [hmap]
  have hpriv : (generateKyberKeyPair (seeds.get ⟨j, hj⟩)).privateKey = seeds.get ⟨j, hj⟩ := rfl
  rw [hpriv]
  simp only [encryptForGroup, decryptFromGroup]
  rw [wrapKeys_getElem? seeds rawSessionKey encapRand wrapIv 0 i hi]
  simp only [Nat.zero_add, kyberEncapsulate,
    take_append_of_len _ (hwiv i), drop_append_of_len _ (hwiv i)]
  rw [aeadDecrypt_wrong_key _ _ (kyberDecapsulate_wrong_key _ _ _ hne)]

/-- Witness for C5: key pair 0's private key presented with index 1. -/
theorem claim_C5_witness :
    decryptFromGroup
      (encryptForGroup "g" ([4, 9].map (fun s => (generateKyberKeyPair s).publicKey))
        [8] [0, 1, 2, 3, 4, 5, 6, 7, 8, 9, 10, 11] (fun n => n + 20)
        (fun n => [n, n, n, n, n, n, n, n, n, n, n, n]))
      (generateKyberKeyPair ([4, 9].get ⟨0, by decide⟩)).privateKey 1
      = .error .authenticationFailure :=
  claim_C5_wrong_recipient_key "g" [4, 9] 1 0 (by decide) (by decide) (by decide) [8]
    [0, 1, 2, 3, 4, 5, 6, 7, 8, 9, 10, 11] (fun n => n + 20)
    (fun n => [n, n, n, n, n, n, n, n, n, n, n, n]) (fun _ => rfl)

/-- C7: the group envelope has exactly one wrappedKeys entry per supplied
public key, in caller order; entry i is the KEM encapsulation under the
i-th public key together with the session key wrapped under the resulting
shared secret; the payload is encrypted exactly once under the single
session key. -/
theorem claim_C7_group_structure (P : String) (publicKeys rawSessionKey iv : List Nat)
    (encapRand : Nat → Nat) (wrapIv : Nat → List Nat) :
    (encryptForGroup P publicKeys rawSessionKey iv encapRand wrapIv).wrappedKeys.length
      = publicKeys.length ∧
    (encryptForGroup P publicKeys rawSessionKey iv encapRand wrapIv).encryptedData
      = iv ++ aeadEncrypt rawSessionKey iv (textEncode P) ∧
    ∀ (i : Nat) (h : i < publicKeys.length),
      (encryptForGroup P publicKeys rawSessionKey iv encapRand wrapIv).wrappedKeys[i]? =
        some { kyberCipherText := (kyberEncapsulate (publicKeys.get ⟨i, h⟩) (encapRand i)).1,
               wrappedSessionKey := wrapIv i ++
                 aeadEncrypt (kyberEncapsulate (publicKeys.get ⟨i, h⟩) (encapRand i)).2
                   (wrapIv i) rawSessionKey } := by
  refine ⟨?_, rfl, ?_⟩
  · simp [encryptForGroup, wrapKeys_length]
  · intro i h
    simp only [encryptForGroup]
    rw [wrapKeys_getElem? publicKeys rawSessionKey encapRand wrapIv 0 i h]
    simp

/-- Witness for C7: the entry at index 1 of a two-recipient envelope. -/
theorem claim_C7_witness :
    (encryptForGroup "m" [4, 9] [8] [0, 1, 2, 3, 4, 5, 6, 7, 8, 9, 10, 11]
        (fun n => n + 20) (fun n => [n, n])).wrappedKeys[1]? =
      some { kyberCipherText := (kyberEncapsulate 9 21).1,
             wrappedSessionKey := [1, 1] ++ aeadEncrypt (kyberEncapsulate 9 21).2 [1, 1] [8] } := by
  have h := (claim_C7_group_structure "m" [4, 9] [8] [0, 1, 2, 3, 4, 5, 6, 7, 8, 9, 10, 11]
    (fun n => n + 20) (fun n => [n, n])).2.2 1 (by decide)
  simpa using h

/-- C4 counterexample: a packed buffer of only 3 bytes makes
decryptMessage fail with the AEAD authentication failure, not with a
MalformedEnvelope error — the code performs no IV-length validation. -/
theorem claim_C4_counterexample :
    decryptMessage { encryptedData := [0, 1, 2], kyberEncryptedSessionKey := 0 } 0
      = .error .authenticationFailure ∧
    decryptMessage { encryptedData := [0, 1, 2], kyberEncryptedSessionKey := 0 } 0
      ≠ .error .malformedEnvelope := by
  constructor
  · rfl
  · intro h
    rw [show decryptMessage { encryptedData := [0, 1, 2], kyberEncryptedSessionKey := 0 } 0
      = .error .authenticationFailure from rfl] at h
    simp at h

/-- C4 amended: when the packed encryptedData buffer is shorter than the
12-byte IV length, each decrypt operation fails without returning a
plaintext, but with the AEAD AuthenticationFailure (or, for
decryptFromGroup with an out-of-range index, the undefined-entry type
error) rather than a distinct MalformedEnvelope error. -/
theorem claim_C4_short_buffer_fails :
    (∀ (em : EncryptedMessage) (priv : Nat), em.encryptedData.length < 12 →
      decryptMessage em priv = .error .authenticationFailure) ∧
    (∀ (em : SymmetricEncryptedMessage) (pw : String), em.encryptedData.length < 12 →
      decryptSymmetricMessage em pw = .error .authenticationFailure) ∧
    (∀ (env : GroupEncryptedMessage) (priv idx : Nat), env.encryptedData.length < 12 →
      decryptFromGroup env priv idx = .error .authenticationFailure ∨
      decryptFromGroup env priv idx = .error .typeErrorUndefined) := by
  refine ⟨?_, ?_, ?_⟩
  · intro em priv h
    have hd : em.encryptedData.drop 12 = [] := List.drop_eq_nil_of_le (by omega)
    simp only [decryptMessage, hd, aeadDecrypt_nil]
  · intro em pw h
    have hd : em.encryptedData.drop 12 = [] := List.drop_eq_nil_of_le (by omega)
    simp only [decryptSymmetricMessage, hd, aeadDecrypt_nil]
  · intro env priv idx h
    have hd : env.encryptedData.drop 12 = [] := List.drop_eq_nil_of_le (by omega)
    cases hw : env.wrappedKeys[idx]? with
    | none =>
      right
      simp only [decryptFromGroup, hw]
    | some wk =>
      left
      simp only [decryptFromGroup, hw]
      cases hu : aeadDecrypt (kyberDecapsulate wk.kyberCipherText priv)
          (wk.wrappedSessionKey.take 12) (wk.wrappedSessionKey.drop 12) with
      | none => simp only [hu]
      | some k => simp only [hu, hd, aeadDecrypt_nil]

/-- Witness for the amended C4 at a concrete 1-byte envelope. -/
theorem claim_C4_witness :
    decryptSymmetricMessage { encryptedData := [9], salt := [] } "pw"
      = .error .authenticationFailure :=
  claim_C4_short_buffer_fails.2.1 { encryptedData := [9], salt := [] } "pw" (by decide)
